import Mathlib

/- Shallow embedding of the credential and access-control core of the
devnorth backend: the bcrypt password hasher (internal/security/bcrypt_hasher.go),
the JWT token service (same file, jwtGenerator), the sliding-window rate
limiter (package ratelimit) and the login orchestration
(internal/usecase/user_usecase.go). -/

namespace DevNorth

/- Association lists over string keys model Go maps. -/

def alistGet {α : Type} (m : List (String × α)) (k : String) : Option α :=
  match m with
  | [] => none
  | (k₁, v) :: rest => if k₁ = k then some v else alistGet rest k

def alistSet {α : Type} (m : List (String × α)) (k : String) (v : α) : List (String × α) :=
  match m with
  | [] => [(k, v)]
  | (k₁, v₁) :: rest => if k₁ = k then (k₁, v) :: rest else (k₁, v₁) :: alistSet rest k v

/- strings.TrimSpace: drop leading and trailing whitespace. -/

def trimSpace (s : String) : String :=
  ⟨((s.data.dropWhile Char.isWhitespace).reverse.dropWhile Char.isWhitespace).reverse⟩

/- domain.User (internal/domain/user.go). Times are modelled as integer
nanoseconds; Go zero values are 0 and the empty string. -/

structure User where
  ID : Int
  Email : String
  HashedPassword : String
  Role : String
  CreatedAt : Int := 0
  UpdatedAt : Int := 0
deriving DecidableEq

/- Symbolic model of the golang.org/x/crypto/bcrypt primitive. A well-formed
bcrypt hash of a secret s is represented by the string "$bc$" followed by the
characters of s. CompareHashAndPassword first parses the stored hash and runs
the expensive key derivation only when parsing succeeds; the Boolean in the
result records whether that cost-bearing computation ran. The 72-byte
truncation inside the primitive is not modelled because both call sites in the
repository reject longer secrets before invoking it, and the cost parameter is
not represented because it only scales the work factor. -/

def GenerateFromPassword (password : String) : String :=
  ⟨'$' :: 'b' :: 'c' :: '$' :: password.data⟩

inductive BcryptOutcome where
  | ok
  | mismatch
  | hashParseError
deriving DecidableEq

def CompareHashAndPassword (hashedPassword password : String) : BcryptOutcome × Bool :=
  match hashedPassword.data with
  | '$' :: 'b' :: 'c' :: '$' :: secret =>
    (if secret = password.data then .ok else .mismatch, true)
  | _ => (.hashParseError, false)

/- Error values of the hasher. ErrInvalidCredentials is domain.ErrInvalidCredentials;
ErrFailedToCompare and ErrFailedToHash are the wrapped errors built with
fmt.Errorf around a bcrypt failure. -/

inductive HasherError where
  | ErrInvalidCredentials
  | ErrFailedToCompare
  | ErrFailedToHash
deriving DecidableEq

/- bcryptHasher.Hash and bcryptHasher.Compare
(internal/security/bcrypt_hasher.go, lines 32 to 58). Besides the Go result,
each returns a Boolean recording whether the underlying cost-bearing bcrypt
computation ran during the call. -/

def bcryptHasher.Hash (password : String) : Except HasherError String × Bool :=
  if password.utf8ByteSize > 72 then (.error .ErrInvalidCredentials, false)
  else (.ok (GenerateFromPassword password), true)

def bcryptHasher.Compare (hashedPassword plainPassword : String) :
    Except HasherError Unit × Bool :=
  if plainPassword.utf8ByteSize > 72 then (.error .ErrInvalidCredentials, false)
  else
    match CompareHashAndPassword hashedPassword plainPassword with
    | (.ok, ran) => (.ok (), ran)
    | (.mismatch, ran) => (.error .ErrInvalidCredentials, ran)
    | (.hashParseError, ran) => (.error .ErrFailedToCompare, ran)

/- Login orchestration (internal/usecase/user_usecase.go, userUseCase.Login).
The repository lookup and the token generator are parameters; the dummy hash
literal in the source is a well-formed bcrypt hash of the word dummy, so it is
represented through the symbolic encoding. The source calls
Compare("someFakePassword", dummyHash), that is, with the fake password in the
stored-hash position and the hash literal in the plaintext position; the model
reproduces that argument order exactly. -/

inductive RepoLookup where
  | found (u : User)
  | notFound
  | failure
deriving DecidableEq

inductive LoginError where
  | ErrInvalidCredentials
  | failedToGetUser
  | failedToGenerateToken
deriving DecidableEq

def dummyHash : String := GenerateFromPassword "dummy"

deriving instance DecidableEq for Except

structure LoginOutcome where
  result : Except LoginError (String × User)
  dummyCompareRanBcrypt : Bool
deriving DecidableEq

def userUseCase.Login (getByEmail : String → RepoLookup)
    (generate : User → Except Unit String)
    (email password : String) : LoginOutcome :=
  match getByEmail (trimSpace email) with
  | .notFound =>
    { result := .error .ErrInvalidCredentials,
      dummyCompareRanBcrypt := (bcryptHasher.Compare "someFakePassword" dummyHash).2 }
  | .failure =>
    { result := .error .failedToGetUser,
      dummyCompareRanBcrypt := (bcryptHasher.Compare "someFakePassword" dummyHash).2 }
  | .found user =>
    match (bcryptHasher.Compare user.HashedPassword password).1 with
    | .error _ => { result := .error .ErrInvalidCredentials, dummyCompareRanBcrypt := false }
    | .ok _ =>
      match generate user with
      | .error _ => { result := .error .failedToGenerateToken, dummyCompareRanBcrypt := false }
      | .ok tok => { result := .ok (tok, user), dummyCompareRanBcrypt := false }

/- JWT token service (internal/security/bcrypt_hasher.go, jwtGenerator,
lines 60 to 193). The HS256 MAC is modelled symbolically: a signature is the
record of the key material and the signed content (header fields and claims),
and signature verification is equality of the recomputed record with the one
carried by the token. Times are integer nanoseconds passed explicitly in place
of time.Now(). -/

structure Claims where
  UserID : Int
  Email : String
  Role : String
  ExpiresAt : Int
  IssuedAt : Int
  NotBefore : Int
deriving DecidableEq

structure MacSig where
  key : String
  alg : String
  kid : String
  claims : Claims
deriving DecidableEq

structure SignedToken where
  alg : String
  kid : String
  claims : Claims
  sig : MacSig
deriving DecidableEq

structure jwtGenerator where
  keys : List (String × String)
  currentKey : String
  tokenDuration : Int
  minKeyLength : Nat := 32
deriving DecidableEq

/- Go map indexing returns the zero value (empty string) for a missing key. -/

def mapGetD (m : List (String × String)) (k : String) : String :=
  (alistGet m k).getD ""

inductive JWTConfigError where
  | ErrKeyIsTooShort
  | ErrDurationMustBePositive
  | ErrLoggerCanNotBeNil
deriving DecidableEq

/- NewJWTGenerator (lines 93 to 117). The slog.Logger argument is modelled by
whether it is nil; time.Duration(durationMinutes) * time.Minute is
durationMinutes * 60e9 nanoseconds. Every key value is trimmed and then
checked against the 32-byte minimum. -/

def NewJWTGenerator (kid : String) (Keys : List (String × String))
    (durationMinutes : Int) (loggerIsNil : Bool) :
    Except JWTConfigError jwtGenerator :=
  let trimmed := Keys.map (fun p => (p.1, trimSpace p.2))
  if trimmed.any (fun p => p.2.utf8ByteSize < 32) then .error .ErrKeyIsTooShort
  else if durationMinutes ≤ 0 then .error .ErrDurationMustBePositive
  else if loggerIsNil then .error .ErrLoggerCanNotBeNil
  else .ok { keys := trimmed, currentKey := kid,
             tokenDuration := durationMinutes * 60 * 1000000000 }

inductive JWTGenerateError where
  | ErrUserCanNotBeNil
  | ErrFailedToSignToken
deriving DecidableEq

/- jwtGenerator.Generate (lines 120 to 152). Signing never fails in the
symbolic model, so ErrFailedToSignToken is unreachable but kept for the error
taxonomy. -/

def jwtGenerator.Generate (g : jwtGenerator) (user : Option User) (now : Int) :
    Except JWTGenerateError SignedToken :=
  match user with
  | none => .error .ErrUserCanNotBeNil
  | some u =>
    let expiresAt := now + g.tokenDuration
    let claims : Claims :=
      { UserID := u.ID, Email := u.Email, Role := u.Role,
        ExpiresAt := expiresAt, IssuedAt := now, NotBefore := now }
    .ok { alg := "HS256", kid := g.currentKey, claims := claims,
          sig := { key := mapGetD g.keys g.currentKey, alg := "HS256",
                   kid := g.currentKey, claims := claims } }

/- Inner causes of a Validate failure. In the source every cause is wrapped
into domain.ErrInvalidToken by fmt.Errorf, with the cause kept as the wrapped
error; the model returns the cause directly. -/

inductive JWTValidateError where
  | ErrUnexpectedSigningMethod
  | ErrUnexpectedKeyID
  | ErrSignatureInvalid
  | ErrTokenExpired
  | ErrTokenNotValidYet
deriving DecidableEq

def isHMACAlg (alg : String) : Bool :=
  alg == "HS256" || alg == "HS384" || alg == "HS512"

/- jwtGenerator.Validate (lines 155 to 193). The keyfunc given to
jwt.ParseWithClaims checks that the signing method is an HMAC method and that
the kid header equals the configured current key, then returns the current
key material; the jwt v5 parser then verifies the signature and finally the
registered time claims (expiry, not-before). -/

def jwtGenerator.Validate (g : jwtGenerator) (tok : SignedToken) (now : Int) :
    Except JWTValidateError User :=
  if ¬ isHMACAlg tok.alg then .error .ErrUnexpectedSigningMethod
  else if tok.kid ≠ g.currentKey then .error .ErrUnexpectedKeyID
  else if tok.sig ≠ { key := mapGetD g.keys g.currentKey, alg := tok.alg,
                      kid := tok.kid, claims := tok.claims } then
    .error .ErrSignatureInvalid
  else if tok.claims.ExpiresAt ≤ now then .error .ErrTokenExpired
  else if now < tok.claims.NotBefore then .error .ErrTokenNotValidYet
  else
    .ok { ID := tok.claims.UserID, Email := tok.claims.Email,
          HashedPassword := "", Role := tok.claims.Role }

/- Sliding-window rate limiter (package ratelimit). Timestamps and window
durations are integer nanoseconds; the single time.Now() instant of a call is
passed explicitly as now (the source reads the clock once for the cutoff and
once for the appended timestamp within the same locked call; both reads are
represented by the same instant). The mutex is not represented: every call
body is a single critical section, so the sequential semantics below is the
per-call semantics. -/

structure RateLimit where
  MaxRequests : Int
  Window : Int
deriving DecidableEq

structure Limiter where
  limits : List (String × RateLimit)
  store : List (String × List (String × List Int))
deriving DecidableEq

def NewLimiter : Limiter := { limits := [], store := [] }

/- Limiter.filterValidRequests: keep the timestamps strictly after
now - window (timestamp.After(cutoff)). -/

def Limiter.filterValidRequests (requests : List Int) (window : Int) (now : Int) :
    List Int :=
  if requests.isEmpty then []
  else requests.filter (fun t => decide (now - window < t))

/- Limiter.Allow. The source first writes the filtered history back, then, if
the request is admitted, writes the history with the new timestamp appended;
the net effect on the store is modelled. A nil inner map for a new ip is the
lazily created empty map. -/

def Limiter.Allow (l : Limiter) (ip path : String) (now : Int) : Bool × Limiter :=
  match alistGet l.limits path with
  | none => (true, l)
  | some rateLimit =>
    let ipStore := (alistGet l.store ip).getD []
    let history := (alistGet ipStore path).getD []
    let validRequests := Limiter.filterValidRequests history rateLimit.Window now
    if (validRequests.length : Int) ≥ rateLimit.MaxRequests then
      (false, { l with store := alistSet l.store ip (alistSet ipStore path validRequests) })
    else
      (true,
       { l with store := alistSet l.store ip (alistSet ipStore path (validRequests ++ [now])) })

/- Limiter.AddLimit: maps.Copy upserts every entry of the argument. -/

def Limiter.AddLimit (l : Limiter) (limitList : List (String × RateLimit)) : Limiter :=
  { l with limits := limitList.foldl (fun m p => alistSet m p.1 p.2) l.limits }

/- Stored request history for one (ip, path) key, with the Go nil defaults. -/

def Limiter.getHistory (l : Limiter) (ip path : String) : List Int :=
  (alistGet ((alistGet l.store ip).getD []) path).getD []

/- The store of a limiter after one Allow call writes history h for the
(ip, path) key. -/

def allowUpdatedStore (l : Limiter) (ip path : String) (h : List Int) :
    List (String × List (String × List Int)) :=
  alistSet l.store ip (alistSet ((alistGet l.store ip).getD []) path h)

/- A sequence of Allow calls for one key at the given instants, returning the
admission results in order together with the final limiter. -/

def Limiter.run (l : Limiter) (ip path : String) : List Int → List Bool × Limiter
  | [] => ([], l)
  | t :: ts =>
    let s := Limiter.Allow l ip path t
    let r := Limiter.run s.2 ip path ts
    (s.1 :: r.1, r.2)

/- The signature Validate recomputes for a token: the current key material
applied to the token's header fields and claims. -/

def recomputedSig (g : jwtGenerator) (tok : SignedToken) : MacSig :=
  { key := mapGetD g.keys g.currentKey, alg := tok.alg, kid := tok.kid, claims := tok.claims }

/- Single-key abstraction of one Allow call for a key whose policy is
(maxRequests, W): the filtered history, the admission decision and the
stored history after the call. -/

def histStep (maxRequests W : Int) (h : List Int) (t : Int) : Bool × List Int :=
  let valid := h.filter (fun x => decide (t - W < x))
  if (valid.length : Int) ≥ maxRequests then (false, valid) else (true, valid ++ [t])

/- Admission decisions of a sequence of single-key calls. -/

def histResults (maxRequests W : Int) (h : List Int) : List Int → List Bool
  | [] => []
  | t :: ts =>
    let s := histStep maxRequests W h t
    s.1 :: histResults maxRequests W s.2 ts

/- The instants of the admitted calls of a sequence of single-key calls. -/

def admittedRun (maxRequests W : Int) (h : List Int) : List Int → List Int
  | [] => []
  | t :: ts =>
    let s := histStep maxRequests W h t
    (if s.1 then [t] else []) ++ admittedRun maxRequests W s.2 ts

/- Membership of an instant in the trailing window of length W ending at t0. -/

def inWindow (W t0 x : Int) : Bool := decide (t0 - W < x) && decide (x ≤ t0)

/- Concrete instances used by the closed theorems below. -/

def ringKey1 : String := "0123456789abcdef0123456789abcdef"

def ringKey2 : String := "fedcba9876543210fedcba9876543210"

def c1Generator : jwtGenerator :=
  { keys := [("k1", ringKey1), ("k2", ringKey2)], currentKey := "k1",
    tokenDuration := 900000000000 }

def c1Claims : Claims :=
  { UserID := 7, Email := "alice@example.com", Role := "USER",
    ExpiresAt := 100, IssuedAt := 0, NotBefore := 0 }

def c1Token : SignedToken :=
  { alg := "HS256", kid := "k2", claims := c1Claims,
    sig := { key := ringKey2, alg := "HS256", kid := "k2", claims := c1Claims } }

def exampleStoredUser : User :=
  { ID := 1, Email := "user@example.com",
    HashedPassword := GenerateFromPassword "rightpassword", Role := "USER" }

def limiterLogin : Limiter :=
  Limiter.AddLimit NewLimiter [("login", { MaxRequests := 3, Window := 1000000000 })]

def limiterMaxZero : Limiter :=
  Limiter.AddLimit NewLimiter [("p", { MaxRequests := 0, Window := 10 })]

def longSecret : String := String.mk (List.replicate 80 'a')

/- Helper lemmas about the Go map model. -/

theorem alistGet_alistSet_self {α : Type} (m : List (String × α)) (k : String) (v : α) :
    alistGet (alistSet m k v) k = some v := by
  induction m with
  | nil => simp [alistGet, alistSet]
  | cons p rest ih =>
    obtain ⟨k₁, v₁⟩ := p
    by_cases h : k₁ = k <;> simp [alistGet, alistSet, h, ih]

theorem alistGet_alistSet_ne {α : Type} (m : List (String × α)) (k k₂ : String) (v : α)
    (h : k₂ ≠ k) : alistGet (alistSet m k v) k₂ = alistGet m k₂ := by
  have h₀ : k ≠ k₂ := Ne.symm h
  induction m with
  | nil => simp [alistGet, alistSet, h₀]
  | cons p rest ih =>
    obtain ⟨k₁, v₁⟩ := p
    by_cases h₁ : k₁ = k
    · subst h₁
      simp [alistGet, alistSet, h₀]
    · by_cases h₂ : k₁ = k₂ <;> simp [alistGet, alistSet, h, h₀, h₁, h₂, ih]

/-- C6: Hash and Compare both reject any secret longer than 72 bytes with the
generic invalid-credentials error, the same error value a genuine mismatch
produces, and do so without running the underlying bcrypt computation. -/
theorem hash_compare_reject_long_secret (s : String) (hs : s.utf8ByteSize > 72) :
    bcryptHasher.Hash s = (.error .ErrInvalidCredentials, false) ∧
    (∀ storedHash, bcryptHasher.Compare storedHash s = (.error .ErrInvalidCredentials, false)) ∧
    (∀ p₁ p₂ : String, p₂.utf8ByteSize ≤ 72 → p₁ ≠ p₂ →
      bcryptHasher.Compare (GenerateFromPassword p₁) p₂ =
        (.error .ErrInvalidCredentials, true)) := by
  refine ⟨by simp [bcryptHasher.Hash, hs], fun storedHash => by simp [bcryptHasher.Compare, hs],
    fun p₁ p₂ hlen hne => ?_⟩
  have hguard : ¬ p₂.utf8ByteSize > 72 := by omega
  have hdata : p₁.data ≠ p₂.data := fun hd => hne (String.ext hd)
  simp [bcryptHasher.Compare, hguard, CompareHashAndPassword, GenerateFromPassword, hdata]

theorem hash_compare_reject_long_secret_witness :
    bcryptHasher.Hash longSecret = (.error .ErrInvalidCredentials, false) ∧
    bcryptHasher.Compare "someStoredHash" longSecret = (.error .ErrInvalidCredentials, false) ∧
    bcryptHasher.Compare (GenerateFromPassword "alpha") "beta" =
      (.error .ErrInvalidCredentials, true) := by
  obtain ⟨h₁, h₂, h₃⟩ := hash_compare_reject_long_secret longSecret (by decide)
  exact ⟨h₁, h₂ "someStoredHash", h₃ "alpha" "beta" (by decide) (by decide)⟩

/-- C10: when the stored hash does not parse as a bcrypt hash, Compare returns
the wrapped comparison-failure error, which is a different error value from
the generic invalid-credentials one; the generic error arises only from an
over-long supplied secret or from a genuine mismatch. -/
theorem compare_malformed_hash_error (storedHash p : String)
    (hlen : p.utf8ByteSize ≤ 72)
    (hmal : (CompareHashAndPassword storedHash p).1 = .hashParseError) :
    (bcryptHasher.Compare storedHash p).1 = .error .ErrFailedToCompare ∧
    HasherError.ErrFailedToCompare ≠ HasherError.ErrInvalidCredentials ∧
    (∀ h₂ p₂ : String, (bcryptHasher.Compare h₂ p₂).1 = .error .ErrInvalidCredentials →
      p₂.utf8ByteSize > 72 ∨ (CompareHashAndPassword h₂ p₂).1 = .mismatch) := by
  have hguard : ¬ p.utf8ByteSize > 72 := by omega
  refine ⟨?_, by decide, fun h₂ p₂ hres => ?_⟩
  · rcases hcc : CompareHashAndPassword storedHash p with ⟨out, ran⟩
    rw [hcc] at hmal
    simp at hmal
    subst hmal
    simp [bcryptHasher.Compare, hguard, hcc]
  · by_cases hl : p₂.utf8ByteSize > 72
    · exact Or.inl hl
    · rcases hcc : CompareHashAndPassword h₂ p₂ with ⟨out, ran⟩
      cases out with
      | ok => simp [bcryptHasher.Compare, hl, hcc] at hres
      | mismatch => exact Or.inr (by simp [hcc])
      | hashParseError => simp [bcryptHasher.Compare, hl, hcc] at hres

theorem compare_malformed_hash_error_witness :
    (bcryptHasher.Compare "notAHash" "secret").1 = .error .ErrFailedToCompare := by
  exact (compare_malformed_hash_error "notAHash" "secret" (by decide) (by decide)).1

/-- C2 (code bug): both the user-not-found path and the wrong-password path
of Login return the same generic invalid-credentials error, but the dummy
comparison of the lookup-failure path passes its arguments to Compare in
swapped order, so the stored-hash argument is the literal someFakePassword,
bcrypt hash parsing fails at once and the cost-bearing bcrypt computation
never runs. -/
theorem login_dummy_compare_skips_bcrypt :
    userUseCase.Login (fun _ => .notFound) (fun _ => .ok "token")
        "nobody@example.com" "password123" =
      { result := .error .ErrInvalidCredentials, dummyCompareRanBcrypt := false } ∧
    (userUseCase.Login (fun _ => .found exampleStoredUser) (fun _ => .ok "token")
        "user@example.com" "wrongpassword").result = .error .ErrInvalidCredentials ∧
    bcryptHasher.Compare "someFakePassword" dummyHash = (.error .ErrFailedToCompare, false) := by
  decide

/-- C8: a resource with no configured policy is always admitted: Allow returns
true and leaves the limiter unchanged, and every call of any sequence for
such a resource returns true. -/
theorem allow_unconfigured_resource (l : Limiter) (ip path : String) (now : Int)
    (h : alistGet l.limits path = none) :
    Limiter.Allow l ip path now = (true, l) ∧
    (∀ ts : List Int, (Limiter.run l ip path ts).1 = ts.map (fun _ => true)) := by
  refine ⟨by simp [Limiter.Allow, h], fun ts => ?_⟩
  induction ts with
  | nil => simp [Limiter.run]
  | cons t rest ih => simp [Limiter.run, Limiter.Allow, h, ih]

theorem allow_unconfigured_resource_witness :
    Limiter.Allow NewLimiter "any" "unconfigured-resource" 5 = (true, NewLimiter) ∧
    (Limiter.run NewLimiter "any" "unconfigured-resource" [1, 2, 3, 4, 5, 6]).1 =
      [true, true, true, true, true, true] := by
  obtain ⟨h₁, h₂⟩ := allow_unconfigured_resource NewLimiter "any" "unconfigured-resource" 5 rfl
  exact ⟨h₁, h₂ [1, 2, 3, 4, 5, 6]⟩

/-- C1 (counterexample): the key k2 is in the ring, the token carries kid k2
and is correctly signed with the material of k2, and it is verified inside
its validity window, yet Validate rejects it, and it rejects it with the
unexpected-key error even though k2 names a key of the ring, because the
source compares the kid header against the current key only. -/
theorem validate_ring_key_rejected :
    ("k2", ringKey2) ∈ c1Generator.keys ∧
    c1Token.kid = "k2" ∧
    c1Token.sig = { key := ringKey2, alg := c1Token.alg, kid := c1Token.kid,
                    claims := c1Token.claims } ∧
    c1Token.claims.NotBefore ≤ 50 ∧ 50 < c1Token.claims.ExpiresAt ∧
    jwtGenerator.Validate c1Generator c1Token 50 = .error .ErrUnexpectedKeyID := by
  decide

/-- C1 (amended): Validate returns the unexpected-key error exactly when the
token declares an HMAC algorithm and its kid header differs from the
configured current key id, whether or not that kid names a key of the ring;
a token is accepted within its validity window exactly when its kid is the
current key id and it is signed with the current key material. -/
theorem validate_accepts_only_current_key (g : jwtGenerator) (tok : SignedToken) (now : Int) :
    (jwtGenerator.Validate g tok now = .error .ErrUnexpectedKeyID ↔
      (isHMACAlg tok.alg = true ∧ tok.kid ≠ g.currentKey)) ∧
    (isHMACAlg tok.alg = true → tok.kid = g.currentKey →
      tok.sig = recomputedSig g tok →
      tok.claims.NotBefore ≤ now → now < tok.claims.ExpiresAt →
      jwtGenerator.Validate g tok now =
        .ok { ID := tok.claims.UserID, Email := tok.claims.Email, HashedPassword := "",
              Role := tok.claims.Role }) := by
  constructor
  · constructor
    · intro hres
      by_cases halg : isHMACAlg tok.alg
      · by_cases hkid : tok.kid = g.currentKey
        · exfalso
          by_cases hsig : tok.sig = recomputedSig g tok
          · by_cases hexp : tok.claims.ExpiresAt ≤ now
            · simp [jwtGenerator.Validate, recomputedSig, halg, hkid, hsig, hexp] at hres
            · by_cases hnbf : now < tok.claims.NotBefore
              · simp [jwtGenerator.Validate, recomputedSig, halg, hkid, hsig, hexp, hnbf] at hres
              · simp [jwtGenerator.Validate, recomputedSig, halg, hkid, hsig, hexp, hnbf] at hres
          · simp only [recomputedSig] at hsig
            rw [hkid] at hsig
            simp [jwtGenerator.Validate, halg, hkid, hsig] at hres
        · exact ⟨halg, hkid⟩
      · simp [jwtGenerator.Validate, halg] at hres
    · rintro ⟨halg, hkid⟩
      simp [jwtGenerator.Validate, halg, hkid]
  · intro halg hkid hsig hnbf hexp
    have hexp₂ : ¬ tok.claims.ExpiresAt ≤ now := by omega
    have hnbf₂ : ¬ now < tok.claims.NotBefore := by omega
    simp only [recomputedSig] at hsig
    simp [jwtGenerator.Validate, halg, hkid, hsig, hexp₂, hnbf₂]

theorem validate_accepts_only_current_key_witness :
    jwtGenerator.Validate c1Generator
      { alg := "HS256", kid := "k1", claims := c1Claims,
        sig := { key := ringKey1, alg := "HS256", kid := "k1", claims := c1Claims } } 50 =
      .ok { ID := 7, Email := "alice@example.com", HashedPassword := "", Role := "USER" } := by
  exact (validate_accepts_only_current_key c1Generator
    { alg := "HS256", kid := "k1", claims := c1Claims,
      sig := { key := ringKey1, alg := "HS256", kid := "k1", claims := c1Claims } } 50).2
    (by decide) (by decide) (by simp [recomputedSig]; decide) (by decide) (by decide)

/-- C4 (counterexample): with a ring that does not contain the designated
current key id, and otherwise valid configuration, NewJWTGenerator succeeds
instead of failing. -/
theorem newJWTGenerator_missing_kid_succeeds :
    alistGet [("k1", ringKey1)] "missing" = none ∧
    NewJWTGenerator "missing" [("k1", ringKey1)] 15 false =
      .ok { keys := [("k1", ringKey1)], currentKey := "missing",
            tokenDuration := 900000000000 } := by
  decide

/-- C4 (amended): construction validates only the minimum key length, the
positivity of the duration and the non-nil logger; it never checks that the
current key id exists in the ring, so for every configuration passing those
three checks, construction succeeds whether or not the kid is in the ring. -/
theorem newJWTGenerator_no_kid_check (kid : String) (Keys : List (String × String))
    (durationMinutes : Int) (loggerIsNil : Bool)
    (hk : ∀ p ∈ Keys, 32 ≤ (trimSpace p.2).utf8ByteSize)
    (hd : 0 < durationMinutes) (hl : loggerIsNil = false) :
    NewJWTGenerator kid Keys durationMinutes loggerIsNil =
      .ok { keys := Keys.map (fun p => (p.1, trimSpace p.2)), currentKey := kid,
            tokenDuration := durationMinutes * 60 * 1000000000 } := by
  have hany : (Keys.map (fun p => (p.1, trimSpace p.2))).any
      (fun p => p.2.utf8ByteSize < 32) = false := by
    rw [List.any_eq_false]
    intro x hx
    obtain ⟨p, hp, hpx⟩ := List.mem_map.mp hx
    have := hk p hp
    subst hpx
    simp
    omega
  have hd₂ : ¬ durationMinutes ≤ 0 := by omega
  simp [NewJWTGenerator, hany, hd₂, hl]

theorem newJWTGenerator_no_kid_check_witness :
    NewJWTGenerator "missing" [("k1", ringKey1)] 15 false =
      .ok { keys := [("k1", trimSpace ringKey1)], currentKey := "missing",
            tokenDuration := 900000000000 } := by
  exact newJWTGenerator_no_kid_check "missing" [("k1", ringKey1)] 15 false
    (by decide) (by decide) rfl

/-- C5: a token issued by Generate for a non-null user, verified immediately
(within its validity window, which is non-empty since the duration is
positive), is accepted by Validate and yields a user whose subject
identifier, email and role equal those of the issuing user. -/
theorem generate_validate_roundtrip (g : jwtGenerator) (u : User) (now : Int)
    (hdur : 0 < g.tokenDuration) :
    ∃ tok, jwtGenerator.Generate g (some u) now = .ok tok ∧
      jwtGenerator.Validate g tok now =
        .ok { ID := u.ID, Email := u.Email, HashedPassword := "", Role := u.Role } := by
  refine ⟨_, rfl, ?_⟩
  have hexp : ¬ now + g.tokenDuration ≤ now := by omega
  have hnbf : ¬ now < now := by omega
  simp [jwtGenerator.Generate, jwtGenerator.Validate, isHMACAlg, hexp, hnbf]

theorem generate_validate_roundtrip_witness :
    ∃ tok, jwtGenerator.Generate c1Generator
        (some { ID := 7, Email := "alice@example.com", HashedPassword := "h",
                Role := "USER" }) 0 = .ok tok ∧
      jwtGenerator.Validate c1Generator tok 0 =
        .ok { ID := 7, Email := "alice@example.com", HashedPassword := "", Role := "USER" } := by
  exact generate_validate_roundtrip c1Generator
    { ID := 7, Email := "alice@example.com", HashedPassword := "h", Role := "USER" } 0
    (by decide)

/- Structural lemmas about Allow. -/

theorem filterValidRequests_eq (h : List Int) (W now : Int) :
    Limiter.filterValidRequests h W now = h.filter (fun t => decide (now - W < t)) := by
  cases h <;> simp [Limiter.filterValidRequests]

theorem Allow_policy_spec (l : Limiter) (ip path : String) (now : Int) (rl : RateLimit)
    (hpol : alistGet l.limits path = some rl) :
    Limiter.Allow l ip path now =
      ((histStep rl.MaxRequests rl.Window (l.getHistory ip path) now).1,
       { l with store := allowUpdatedStore l ip path (histStep rl.MaxRequests rl.Window (l.getHistory ip path) now).2 }) := by
  simp only [Limiter.Allow, hpol, Limiter.getHistory, histStep, allowUpdatedStore,
    filterValidRequests_eq]
  split <;> simp_all

theorem Allow_limits (l : Limiter) (ip path : String) (now : Int) :
    (Limiter.Allow l ip path now).2.limits = l.limits := by
  simp only [Limiter.Allow]
  cases alistGet l.limits path with
  | none => rfl
  | some rl => dsimp only; split <;> rfl

theorem Allow_getHistory_self (l : Limiter) (ip path : String) (now : Int) (rl : RateLimit)
    (hpol : alistGet l.limits path = some rl) :
    (Limiter.Allow l ip path now).2.getHistory ip path =
      (histStep rl.MaxRequests rl.Window (l.getHistory ip path) now).2 := by
  rw [Allow_policy_spec l ip path now rl hpol]
  simp [Limiter.getHistory, allowUpdatedStore, alistGet_alistSet_self]

theorem Allow_getHistory_other (l : Limiter) (ip path : String) (now : Int)
    (ip₂ path₂ : String) (hne : ¬ (ip₂ = ip ∧ path₂ = path)) :
    (Limiter.Allow l ip path now).2.getHistory ip₂ path₂ = l.getHistory ip₂ path₂ := by
  cases hpol : alistGet l.limits path with
  | none => simp [Limiter.Allow, hpol]
  | some rl =>
    rw [Allow_policy_spec l ip path now rl hpol]
    by_cases hip : ip₂ = ip
    · subst hip
      have hpath : path₂ ≠ path := fun hp => hne ⟨rfl, hp⟩
      simp [Limiter.getHistory, allowUpdatedStore, alistGet_alistSet_self,
        alistGet_alistSet_ne _ _ _ _ hpath]
    · simp [Limiter.getHistory, allowUpdatedStore, alistGet_alistSet_ne _ _ _ _ hip]

/-- C7: when Allow rejects a request, no timestamp is recorded: the stored
history of the rejected key becomes exactly the old history with the entries
outside the window filtered away, the policy table is unchanged, and the
history of every other key is unchanged. -/
theorem allow_reject_frame (l : Limiter) (ip path : String) (now : Int)
    (hrej : (Limiter.Allow l ip path now).1 = false) :
    (Limiter.Allow l ip path now).2.limits = l.limits ∧
    (∃ rl, alistGet l.limits path = some rl ∧
      (Limiter.Allow l ip path now).2.getHistory ip path =
        (l.getHistory ip path).filter (fun t => decide (now - rl.Window < t))) ∧
    (∀ ip₂ path₂, ¬ (ip₂ = ip ∧ path₂ = path) →
      (Limiter.Allow l ip path now).2.getHistory ip₂ path₂ = l.getHistory ip₂ path₂) := by
  refine ⟨Allow_limits l ip path now, ?_, fun ip₂ path₂ hne =>
    Allow_getHistory_other l ip path now ip₂ path₂ hne⟩
  cases hpol : alistGet l.limits path with
  | none => simp [Limiter.Allow, hpol] at hrej
  | some rl =>
    refine ⟨rl, rfl, ?_⟩
    rw [Allow_getHistory_self l ip path now rl hpol]
    rw [Allow_policy_spec l ip path now rl hpol] at hrej
    simp only [histStep] at hrej ⊢
    split at hrej
    · simp_all
    · simp at hrej

theorem allow_reject_frame_witness :
    (Limiter.Allow limiterMaxZero "i" "p" 5).2.limits = limiterMaxZero.limits := by
  exact (allow_reject_frame limiterMaxZero "i" "p" 5 (by decide)).1

/- The admission results of a run for a key with a configured policy are
those of the single-key abstraction started from the stored history. -/

theorem run_results (l : Limiter) (ip path : String) (rl : RateLimit)
    (hpol : alistGet l.limits path = some rl) (ts : List Int) :
    (Limiter.run l ip path ts).1 =
      histResults rl.MaxRequests rl.Window (l.getHistory ip path) ts := by
  induction ts generalizing l with
  | nil => rfl
  | cons t rest ih =>
    have hpol₂ : alistGet (Limiter.Allow l ip path t).2.limits path = some rl := by
      rw [Allow_limits]; exact hpol
    have hh := Allow_getHistory_self l ip path t rl hpol
    have hb := congrArg Prod.fst (Allow_policy_spec l ip path t rl hpol)
    simp only [Limiter.run, histResults]
    rw [ih _ hpol₂, hh, hb]

/- Counting admitted instants through the zip of instants with results is
counting over the admitted-instants list. -/

theorem zip_countP_eq_admittedRun (maxR W : Int) (p : Int → Bool) (ts : List Int) :
    ∀ h : List Int,
      (ts.zip (histResults maxR W h ts)).countP (fun q => q.2 && p q.1) =
        (admittedRun maxR W h ts).countP p := by
  induction ts with
  | nil => intro h; rfl
  | cons t rest ih =>
    intro h
    simp only [histResults, admittedRun, List.zip_cons_cons, List.countP_cons,
      List.countP_append, ih]
    cases hb : (histStep maxR W h t).1
    · simp [List.countP_cons]
    · simp [List.countP_cons]
      omega

/- Sliding-window invariant. A is the list of previously admitted instants,
c a cutoff no later than t - W for every remaining instant t, and the stored
history is exactly the admitted instants after the cutoff; then no trailing
window of length W ever holds more than maxR admitted instants. -/

theorem admittedRun_bound (maxR W : Int) (hW : 0 < W) (ts : List Int) :
    ∀ (A : List Int) (c : Int),
      List.Pairwise (· ≤ ·) ts →
      (∀ a ∈ A, ∀ t ∈ ts, a ≤ t) →
      (∀ t ∈ ts, c ≤ t - W) →
      (∀ t₁ : Int, A.countP (inWindow W t₁) ≤ maxR.toNat) →
      ∀ t₀ : Int,
        A.countP (inWindow W t₀) +
          (admittedRun maxR W (A.filter (fun x => decide (c < x))) ts).countP (inWindow W t₀)
          ≤ maxR.toNat := by
  induction ts with
  | nil =>
    intro A c _ _ _ hA t₀
    simpa [admittedRun] using hA t₀
  | cons t rest ih =>
    intro A c hsort hAle hc hA t₀
    rw [List.pairwise_cons] at hsort
    obtain ⟨hhead, hsort₂⟩ := hsort
    have hcW : c ≤ t - W := hc t (by simp)
    have hfilter : (A.filter (fun x => decide (c < x))).filter (fun x => decide (t - W < x)) =
        A.filter (fun x => decide (t - W < x)) := by
      rw [List.filter_filter]
      apply List.filter_congr
      intro a _
      by_cases h₁ : t - W < a
      · have h₂ : c < a := by omega
        simp [h₁, h₂]
      · simp [h₁]
    have hcount_t : A.countP (inWindow W t) =
        (A.filter (fun x => decide (t - W < x))).length := by
      rw [List.countP_eq_length_filter]
      congr 1
      apply List.filter_congr
      intro a ha
      have hat : a ≤ t := hAle a ha t (by simp)
      simp [inWindow, hat]
    simp only [admittedRun, histStep, hfilter]
    by_cases hcond : maxR ≤ ((A.filter (fun x => decide (t - W < x))).length : Int)
    · -- rejected: history becomes the filtered list, nothing admitted
      simp only [ge_iff_le, if_pos hcond, Bool.false_eq_true, if_false, List.nil_append]
      have := ih A (t - W) hsort₂
        (fun a ha t₂ ht₂ => hAle a ha t₂ (by simp [ht₂]))
        (fun t₂ ht₂ => by have := hhead t₂ ht₂; omega)
        hA t₀
      simpa [hfilter] using this
    · -- admitted: t is appended to the history and to the admitted instants
      simp only [ge_iff_le, if_neg hcond, if_true]
      have happend : (A ++ [t]).filter (fun x => decide (t - W < x)) =
          A.filter (fun x => decide (t - W < x)) ++ [t] := by
        rw [List.filter_append]
        have htt : t - W < t := by omega
        simp [htt]
      have hA₂ : ∀ t₁ : Int, (A ++ [t]).countP (inWindow W t₁) ≤ maxR.toNat := by
        intro t₁
        rw [List.countP_append]
        by_cases hwt : inWindow W t₁ t = true
        · have hmono : A.countP (inWindow W t₁) ≤ A.countP (inWindow W t) := by
            apply List.countP_mono_left
            intro a ha hin
            have hat : a ≤ t := hAle a ha t (by simp)
            simp only [inWindow, Bool.and_eq_true, decide_eq_true_eq] at hwt hin ⊢
            omega
          have hone : List.countP (inWindow W t₁) [t] = 1 := by
            simp [List.countP_cons, hwt]
          rw [hone]
          have hlen : A.countP (inWindow W t) =
              (A.filter (fun x => decide (t - W < x))).length := hcount_t
          omega
        · have hzero : List.countP (inWindow W t₁) [t] = 0 := by
            simp [List.countP_cons, hwt]
          rw [hzero]
          simpa using hA t₁
      have hstep := ih (A ++ [t]) (t - W) hsort₂
        (fun a ha t₂ ht₂ => by
          rcases List.mem_append.mp ha with h | h
          · exact hAle a h t₂ (by simp [ht₂])
          · simp at h; subst h; exact hhead t₂ ht₂)
        (fun t₂ ht₂ => by have := hhead t₂ ht₂; omega)
        hA₂ t₀
      rw [happend] at hstep
      simp only [List.countP_append, List.countP_cons] at hstep ⊢
      omega

/-- C3: for a key whose resource has a configured policy with a positive
window, over any nondecreasing sequence of Allow calls starting from an
empty history, at most MaxRequests admitted calls fall inside any trailing
window of the configured length; and the spec scenario holds: with the
policy max 3, window 1s on login, four calls within one second yield
true, true, true, false, and a fifth call after the window yields true. -/
theorem allow_sliding_window_bound :
    (∀ (l : Limiter) (rl : RateLimit) (ip path : String) (ts : List Int) (t₀ : Int),
      alistGet l.limits path = some rl →
      l.getHistory ip path = [] →
      0 < rl.Window →
      List.Pairwise (· ≤ ·) ts →
      (ts.zip (Limiter.run l ip path ts).1).countP
          (fun q => q.2 && inWindow rl.Window t₀ q.1) ≤ rl.MaxRequests.toNat) ∧
    (Limiter.run limiterLogin "ip1" "login" [0, 100, 200, 300, 1000000301]).1 =
      [true, true, true, false, true] := by
  constructor
  · intro l rl ip path ts t₀ hpol hhist hW hsort
    rw [run_results l ip path rl hpol, hhist,
      zip_countP_eq_admittedRun rl.MaxRequests rl.Window (inWindow rl.Window t₀) ts []]
    cases ts with
    | nil => simp [admittedRun]
    | cons t rest =>
      have hbound := admittedRun_bound rl.MaxRequests rl.Window hW (t :: rest) []
        (t - rl.Window) hsort (by simp)
        (fun t₂ ht₂ => by
          rcases List.mem_cons.mp ht₂ with h | h
          · omega
          · have := (List.pairwise_cons.mp hsort).1 t₂ h
            omega)
        (fun t₁ => by simp)
        t₀
      simpa using hbound
  · decide

theorem allow_sliding_window_bound_witness :
    ([(0 : Int), 100, 200, 300, 1000000301].zip
        (Limiter.run limiterLogin "ip1" "login" [0, 100, 200, 300, 1000000301]).1).countP
      (fun q => q.2 && inWindow 1000000000 250 q.1) ≤ 3 := by
  exact allow_sliding_window_bound.1 limiterLogin
    { MaxRequests := 3, Window := 1000000000 } "ip1" "login"
    [0, 100, 200, 300, 1000000301] 250 (by decide) (by decide) (by decide)
    (by decide)

end DevNorth
